import Mathlib

/-!
Verification of the sync/dispatch engine of `src/matrixHttpApi.ts`.

The module-level mutable state of the TypeScript file (`config`, `since`,
`messageCallback`, `errorCallback`, `exitCallback`, `botUserId`, `running`,
`seen`) is embedded as the structure `ModuleState`.  The JavaScript `Set`
`seen` preserves insertion order, so it is embedded as a duplicate-free
`List String` in insertion order.  Asynchronous functions become pure
functions that take the state, together with oracles describing what the
network returns (`NetOracle`, `InitOracle`) and whether registered
callbacks throw (`CallbackBehavior`).  Observable actions (HTTP requests
issued, callback invocations, the 2000 ms back-off sleep) are recorded in
an `Effect` trace.  A JavaScript exception propagating out of a function
is an `Option String` result channel carrying the error, together with the
state and effects accumulated up to the throw point (exceptions do not
roll back mutations).  Logging via `console.log` / `console.error` is not
modelled.  The `ErrorCallback` invocation inside the loop's catch block is
recorded as an effect and treated as returning normally.
-/

/-- Embeds the `content` field of the TypeScript `MatrixEvent` record:
`{ msgtype?: string; body?: string }`, both fields optional. -/
structure EventContent where
  msgtype : Option String
  body : Option String
deriving DecidableEq

/-- Embeds the TypeScript `MatrixEvent` record: all four fields optional. -/
structure MatrixEvent where
  event_id : Option String
  type : Option String
  sender : Option String
  content : Option EventContent
deriving DecidableEq

/-- Embeds `{ timeline?: { events?: MatrixEvent[] } }` for a joined room. -/
structure RoomTimeline where
  events : Option (List MatrixEvent)
deriving DecidableEq

/-- Joined-room entry of a sync response. -/
structure JoinedRoom where
  timeline : Option RoomTimeline
deriving DecidableEq

/-- Embeds the `rooms` field of `SyncResponse`.  The `invite` record is
represented by its key list (the code only uses `Object.keys`); the `join`
record is an association list from room id to `JoinedRoom`. -/
structure SyncRooms where
  invite : Option (List String)
  join : Option (List (String × JoinedRoom))
deriving DecidableEq

/-- Embeds the TypeScript `SyncResponse` type. -/
structure SyncResponse where
  next_batch : Option String
  rooms : Option SyncRooms
deriving DecidableEq

/-- Embeds `MatrixClientConfig`.  The three optional callback fields are
represented by presence flags; their runtime behaviour (whether an
invocation throws) lives in `CallbackBehavior`. -/
structure MatrixClientConfig where
  homeserver : String
  botAccessToken : String
  roomId : String
  humanUserId : String
  onHumanMessage : Bool
  onError : Bool
  onExit : Bool
deriving DecidableEq

/-- The module-level mutable state of `matrixHttpApi.ts`: `config`,
`since`, the three callback registration slots (presence flags), batch
`botUserId`, the `running` flag and the insertion-ordered `seen` set. -/
structure ModuleState where
  config : Option MatrixClientConfig
  since : Option String
  messageCallback : Bool
  errorCallback : Bool
  exitCallback : Bool
  botUserId : Option String
  running : Bool
  seen : List String
deriving DecidableEq

/-- Oracle for the behaviour of the registered callbacks: `msgCbError b s`
is `some e` when invoking the message callback on `(b, s)` throws `e`;
`exitCbError` likewise for the exit callback. -/
structure CallbackBehavior where
  msgCbError : String → String → Option String
  exitCbError : Option String

/-- Oracle for the network during one loop iteration: the outcome of the
`syncOnceAsync` call, and for each room id whether `joinRoomAsync` throws. -/
structure NetOracle where
  pollResult : Except String SyncResponse
  joinError : String → Option String

/-- Oracle for the two network calls made by `initAsync`. -/
structure InitOracle where
  whoamiResult : Except String String
  bootResult : Except String SyncResponse

/-- Observable actions of the engine: HTTP requests issued (whoami, sync
poll with its effective `since` parameter and timeout, join), callback
invocations, and the 2000 ms back-off sleep of the catch block. -/
inductive Effect where
  | whoamiRequest : Effect
  | pollRequest (since : Option String) (timeoutMs : Nat) : Effect
  | joinRequest (roomId : String) : Effect
  | message (body sender : String) : Effect
  | exitCb : Effect
  | errorCb (e : String) : Effect
  | backoff : Effect
deriving DecidableEq

/-- `const MAX_SEEN = 1000`. -/
def MAX_SEEN : Nat := 1000

/-- `seen.has(id)` on the insertion-ordered set. -/
def seenHas (seen : List String) (id : String) : Bool :=
  seen.contains id

/-- `seen.add(id)`: a JavaScript `Set` appends a new element at the end of
the insertion order and ignores an element already present. -/
def seenAdd (seen : List String) (id : String) : List String :=
  if seen.contains id then seen else seen ++ [id]

/-- The body of the `for (const id of seen)` loop of `evictOldSeen`:
delete the first `toDelete` entries in insertion order, then break. -/
def evictLoop : Nat → List String → List String
  | 0, s => s
  | _ + 1, [] => []
  | n + 1, _ :: rest => evictLoop n rest

/-- `evictOldSeen` from the source: when the set is over capacity, delete
`seen.size - MAX_SEEN` entries, oldest (first-inserted) first. -/
def evictOldSeen (seen : List String) : List String :=
  if seen.length > MAX_SEEN then evictLoop (seen.length - MAX_SEEN) seen else seen

/-- JavaScript truthiness of an optional string: `undefined` and the empty
string are falsy.  Used for `if (s.next_batch)`, `if (sinceToken)` and
`if (!sender || !body)`. -/
def truthy : Option String → Bool
  | none => false
  | some s => !(s == "")

/-- The effective `since` query parameter of `syncOnceAsync`: set only when
`sinceToken` is truthy. -/
def sinceParam (sinceToken : Option String) : Option String :=
  match sinceToken with
  | none => none
  | some s => if s == "" then none else some s

/-- `Object.keys(s.rooms?.invite ?? \x7b\x7d)`. -/
def inviteKeys (rooms : Option SyncRooms) : List String :=
  match rooms with
  | none => []
  | some rs => rs.invite.getD []

/-- `s.rooms?.join?.[roomId]`. -/
def lookupJoin (rooms : Option SyncRooms) (roomId : String) : Option JoinedRoom :=
  match rooms with
  | none => none
  | some rs =>
    match rs.join with
    | none => none
    | some l => (l.find? (fun p => p.1 == roomId)).map Prod.snd

/-- `room?.timeline?.events ?? []` for the configured room. -/
def extractEvents (rooms : Option SyncRooms) (roomId : String) : List MatrixEvent :=
  match lookupJoin rooms roomId with
  | none => []
  | some room =>
    match room.timeline with
    | none => []
    | some t => t.events.getD []

/-- The exported `stop`: its body is exactly `running = false`; it invokes
no callback and issues no request, hence the empty effect list. -/
def stop (st : ModuleState) : ModuleState × List Effect :=
  ({ st with running := false }, [])

/-- `shutdownAsync`, the signal-handler path: await the exit callback when
one is registered (a throw aborts before `stop()` is reached), then clear
the running flag. -/
def shutdownAsync (cb : CallbackBehavior) (st : ModuleState) :
    ModuleState × List Effect × Option String :=
  if st.exitCallback then
    match cb.exitCbError with
    | some e => (st, [Effect.exitCb], some e)
    | none => ({ st with running := false }, [Effect.exitCb], none)
  else ({ st with running := false }, [], none)

/-- Outcome of `handleExitAsync`: resulting state, whether the exit
callback was invoked, and the error if the callback threw. -/
structure ExitOutcome where
  state : ModuleState
  invoked : Bool
  thrown : Option String

/-- `handleExitAsync`: await the exit callback when registered (a throw
propagates and `stop()` is not reached), then clear the running flag. -/
def handleExitAsync (cb : CallbackBehavior) (st : ModuleState) : ExitOutcome :=
  if st.exitCallback then
    match cb.exitCbError with
    | some e => ⟨st, true, some e⟩
    | none => ⟨{ st with running := false }, true, none⟩
  else ⟨{ st with running := false }, false, none⟩

/-- JavaScript's `toLowerCase()`, character-wise (`Char.toLower` agrees
with it on the ASCII range relevant to the `"exit"` comparison). -/
def jsToLowerCase (s : String) : String :=
  ⟨s.data.map Char.toLower⟩

/-- Per-event outcome of the filter chain of `processEventsAsync`
(lines 144-165 of the source): either the event is skipped (`continue`),
or it is the in-band exit command, or it is to be dispatched.  Each
constructor carries the `seen` set after the dedup bookkeeping for this
event. -/
inductive EventStep where
  | skip (newSeen : List String)
  | exitStep (newSeen : List String)
  | dispatch (newSeen : List String) (eventId body sender : String)

/-- The filter chain applied to one event, in source order: falsy
(missing or empty, per `!eventId`) or already-seen id — skipped without
touching the window — then record the id (`seen.add` then `evictOldSeen`),
kind check, message-subtype check, falsy sender/body check, self-echo
check, human check, and the case-insensitive `"exit"` interception. -/
def classifyEvent (cfg : MatrixClientConfig) (bot : String) (seen : List String)
    (ev : MatrixEvent) : EventStep :=
  match ev.event_id with
  | none => .skip seen
  | some eventId =>
    if eventId = "" then .skip seen
    else if seenHas seen eventId then .skip seen
    else
      let seen1 := evictOldSeen (seenAdd seen eventId)
      if ev.type ≠ some "m.room.message" then .skip seen1
      else
        match ev.content with
        | none => .skip seen1
        | some c =>
          if c.msgtype ≠ some "m.text" then .skip seen1
          else
            match ev.sender, c.body with
            | some sender, some body =>
              if sender = "" ∨ body = "" then .skip seen1
              else if sender = bot then .skip seen1
              else if sender = cfg.humanUserId then
                if jsToLowerCase body = "exit" then .exitStep seen1
                else .dispatch seen1 eventId body sender
              else .skip seen1
            | _, _ => .skip seen1

/-- Result of `processEventsAsync`: final state, the dispatch record
(`event_id`, body, sender — recorded at the point the message callback is
invoked), the effect trace, whether the exit callback was invoked, whether
the early `return` of the exit path was reached, and the error if an
exception escaped. -/
structure ProcResult where
  state : ModuleState
  dispatched : List (String × String × String)
  effects : List Effect
  exitCbInvoked : Bool
  exited : Bool
  thrown : Option String

/-- The `for (const ev of events)` loop of `processEventsAsync`, after the
`!config || !botUserId` guard has passed. -/
def processEventsGo (cb : CallbackBehavior) (cfg : MatrixClientConfig) (bot : String) :
    ModuleState → List MatrixEvent → ProcResult
  | st, [] => ⟨st, [], [], false, false, none⟩
  | st, ev :: rest =>
    match classifyEvent cfg bot st.seen ev with
    | .skip seen1 => processEventsGo cb cfg bot { st with seen := seen1 } rest
    | .exitStep seen1 =>
      let r := handleExitAsync cb { st with seen := seen1 }
      ⟨r.state, [], if r.invoked then [Effect.exitCb] else [], r.invoked,
        r.thrown.isNone, r.thrown⟩
    | .dispatch seen1 eventId body sender =>
      let st1 : ModuleState := { st with seen := seen1 }
      if st1.messageCallback then
        match cb.msgCbError body sender with
        | some e =>
          ⟨st1, [(eventId, body, sender)], [Effect.message body sender], false, false, some e⟩
        | none =>
          let r := processEventsGo cb cfg bot st1 rest
          ⟨r.state, (eventId, body, sender) :: r.dispatched,
            Effect.message body sender :: r.effects, r.exitCbInvoked, r.exited, r.thrown⟩
      else processEventsGo cb cfg bot st1 rest

/-- `processEventsAsync`: the `!config || !botUserId` guard followed by
the event loop.  `config` is an object, falsy only when null; `botUserId`
is a string, falsy when null or empty, so an empty resolved identity also
makes the function return before touching any event. -/
def processEventsAsync (cb : CallbackBehavior) (st : ModuleState)
    (events : List MatrixEvent) : ProcResult :=
  match st.config, st.botUserId with
  | some cfg, some bot =>
    if bot = "" then ⟨st, [], [], false, false, none⟩
    else processEventsGo cb cfg bot st events
  | _, _ => ⟨st, [], [], false, false, none⟩

/-- A sequence of raw event batches fed through the event filter one batch
per call, threading the module state; collects every dispatch record. -/
def processBatches (cb : CallbackBehavior) :
    ModuleState → List (List MatrixEvent) → ModuleState × List (String × String × String)
  | st, [] => (st, [])
  | st, b :: bs =>
    let r := processEventsAsync cb st b
    let rec1 := processBatches cb r.state bs
    (rec1.1, r.dispatched ++ rec1.2)

/-- Number of dispatch records carrying the event identifier `i`. -/
def countD (i : String) (l : List (String × String × String)) : Nat :=
  l.countP (fun t => t.1 == i)

/-- The `for (const rid of Object.keys(...))` auto-join loop of
`syncLoopAsync`: each iteration issues a join request; a throwing join
aborts the loop (there is no per-join catch in the source) and the error
propagates. -/
def joinLoop (net : NetOracle) : List String → List Effect × Option String
  | [] => ([], none)
  | rid :: rest =>
    match net.joinError rid with
    | some e => ([Effect.joinRequest rid], some e)
    | none =>
      let r := joinLoop net rest
      (Effect.joinRequest rid :: r.1, r.2)

/-- The `try` block of one iteration of `syncLoopAsync`: poll with the
current cursor (30000 ms), adopt a truthy `next_batch` immediately,
auto-join invited rooms, then extract and process the configured room's
timeline events.  The `Option String` component is the error escaping the
block, if any. -/
def syncIterationBody (cb : CallbackBehavior) (net : NetOracle)
    (cfg : MatrixClientConfig) (st : ModuleState) :
    ModuleState × List Effect × Option String :=
  let pollEff := Effect.pollRequest (sinceParam st.since) 30000
  match net.pollResult with
  | .error e => (st, [pollEff], some e)
  | .ok s =>
    let st1 := if truthy s.next_batch then { st with since := s.next_batch } else st
    let jr := joinLoop net (inviteKeys s.rooms)
    match jr.2 with
    | some e => (st1, pollEff :: jr.1, some e)
    | none =>
      let events := extractEvents s.rooms cfg.roomId
      let r := processEventsAsync cb st1 events
      (r.state, pollEff :: jr.1 ++ r.effects, r.thrown)

/-- One iteration of the `while (running)` loop: the `try` block and its
`catch` block, which reports the error to the error callback when one is
registered and then sleeps 2000 ms.  No error leaves the iteration. -/
def syncIterationWith (cb : CallbackBehavior) (net : NetOracle)
    (cfg : MatrixClientConfig) (st : ModuleState) : ModuleState × List Effect :=
  let b := syncIterationBody cb net cfg st
  match b.2.2 with
  | none => (b.1, b.2.1)
  | some e =>
    (b.1, b.2.1 ++ (if b.1.errorCallback then [Effect.errorCb e] else []) ++ [Effect.backoff])

/-- The `while (running)` loop, run for at most `fuel` iterations; the
oracle `nets i` describes the network during iteration `i`. -/
def syncLoopGo (cb : CallbackBehavior) (nets : Nat → NetOracle)
    (cfg : MatrixClientConfig) : Nat → Nat → ModuleState → ModuleState × List Effect
  | 0, _, st => (st, [])
  | fuel + 1, i, st =>
    if st.running then
      let r := syncIterationWith cb (nets i) cfg st
      let rest := syncLoopGo cb nets cfg fuel (i + 1) r.1
      (rest.1, r.2 ++ rest.2)
    else (st, [])

/-- `syncLoopAsync`: the `if (!config) return` guard, then the loop. -/
def syncLoopAsync (cb : CallbackBehavior) (nets : Nat → NetOracle) (fuel : Nat)
    (st : ModuleState) : ModuleState × List Effect :=
  match st.config with
  | none => (st, [])
  | some cfg => syncLoopGo cb nets cfg fuel 0 st

/-- The three `if (cfg.onX)` callback registrations of `initAsync`. -/
def registerFromConfig (cfg : MatrixClientConfig) (st : ModuleState) : ModuleState :=
  let st1 := if cfg.onHumanMessage then { st with messageCallback := true } else st
  let st2 := if cfg.onError then { st1 with errorCallback := true } else st1
  if cfg.onExit then { st2 with exitCallback := true } else st2

/-- `loopInBackground`: idempotent start — when already running do
nothing, otherwise set the running flag (the detached loop itself is
modelled by `syncLoopAsync`). -/
def loopInBackground (st : ModuleState) : ModuleState :=
  if st.running then st else { st with running := true }

/-- `initAsync`: store the config, register the callbacks supplied in it,
resolve the bot identity (`whoamiAsync`), bootstrap with one zero-timeout
poll carrying no cursor, adopt its `next_batch` unconditionally, and start
the loop.  Signal-handler registration installs `shutdownAsync`, which is
modelled as its own definition.  A failing network call propagates to the
caller with the mutations made so far. -/
def initAsync (cfg : MatrixClientConfig) (orc : InitOracle) (st : ModuleState) :
    ModuleState × List Effect × Option String :=
  let st0 := registerFromConfig cfg { st with config := some cfg }
  match orc.whoamiResult with
  | .error e => (st0, [Effect.whoamiRequest], some e)
  | .ok uid =>
    let st1 := { st0 with botUserId := some uid }
    match orc.bootResult with
    | .error e => (st1, [Effect.whoamiRequest, Effect.pollRequest (sinceParam none) 0], some e)
    | .ok boot =>
      let st2 := { st1 with since := boot.next_batch }
      let st3 := loopInBackground st2
      (st3, [Effect.whoamiRequest, Effect.pollRequest (sinceParam none) 0], none)

/-! Concrete fixtures used by witnesses and counterexamples. -/

/-- A concrete configuration with all three callbacks supplied. -/
def cfgA : MatrixClientConfig :=
  ⟨"https://hs.example", "tok", "!room:x", "@human:x", true, true, true⟩

/-- Callback behaviour in which no registered callback throws. -/
def cbOk : CallbackBehavior := ⟨fun _ _ => none, none⟩

/-- Callback behaviour in which the exit callback throws. -/
def cbExitThrows : CallbackBehavior := ⟨fun _ _ => none, some "exit boom"⟩

/-- A concrete running post-bootstrap state with all callbacks registered. -/
def stA : ModuleState :=
  ⟨some cfgA, some "T1", true, true, true, some "@bot:x", true, []⟩

/-- An ordinary text message from the configured human. -/
def evHi : MatrixEvent :=
  ⟨some "e1", some "m.room.message", some "@human:x", some ⟨some "m.text", some "hi"⟩⟩

/-- A case-insensitive in-band exit command from the configured human. -/
def evExit : MatrixEvent :=
  ⟨some "eX", some "m.room.message", some "@human:x", some ⟨some "m.text", some "EXIT"⟩⟩

/-- A message whose sender is the bot itself. -/
def evBot : MatrixEvent :=
  ⟨some "eB", some "m.room.message", some "@bot:x", some ⟨some "m.text", some "exit"⟩⟩

/-- A message from a third party who is neither the bot nor the human. -/
def evOther : MatrixEvent :=
  ⟨some "eO", some "m.room.message", some "@stranger:x", some ⟨some "m.text", some "exit"⟩⟩

/-! Basic facts about the dedup window operations. -/

theorem evictLoop_eq_drop (n : Nat) (l : List String) : evictLoop n l = l.drop n := by
  induction n generalizing l with
  | zero => cases l <;> simp [evictLoop]
  | succ n ih => cases l <;> simp [evictLoop, ih]

theorem evictOldSeen_of_le {l : List String} (h : l.length ≤ MAX_SEEN) :
    evictOldSeen l = l := by
  simp [evictOldSeen, Nat.not_lt.mpr h]

theorem evictOldSeen_of_gt {l : List String} (h : l.length > MAX_SEEN) :
    evictOldSeen l = l.drop (l.length - MAX_SEEN) := by
  simp [evictOldSeen, h, evictLoop_eq_drop]

theorem seenAdd_length_le (s : List String) (id : String) :
    (seenAdd s id).length ≤ s.length + 1 := by
  unfold seenAdd
  split <;> simp

theorem mem_seenAdd_of_mem {s : List String} {x : String} (id : String) (h : x ∈ s) :
    x ∈ seenAdd s id := by
  unfold seenAdd
  split <;> simp [h]

theorem mem_seenAdd_self {s : List String} {id : String} : id ∈ seenAdd s id := by
  unfold seenAdd
  split
  · next h => simpa using h
  · simp

theorem classifyEvent_exit_inv {cfg : MatrixClientConfig} {bot : String}
    {seen : List String} {ev : MatrixEvent} {seen1 : List String}
    (hc : classifyEvent cfg bot seen ev = .exitStep seen1) :
    ∃ eventId body sender,
      ev.event_id = some eventId ∧ seenHas seen eventId = false ∧
      seen1 = evictOldSeen (seenAdd seen eventId) ∧
      ev.type = some "m.room.message" ∧
      ev.content = some ⟨some "m.text", some body⟩ ∧
      ev.sender = some sender ∧ sender ≠ "" ∧ body ≠ "" ∧ sender ≠ bot ∧
      sender = cfg.humanUserId ∧ jsToLowerCase body = "exit" := by
  unfold classifyEvent at hc
  repeat' split at hc
  all_goals simp only [EventStep.exitStep.injEq, reduceCtorEq] at hc
  all_goals subst hc
  all_goals (cases ‹EventContent›; aesop)

theorem classifyEvent_dispatch_inv {cfg : MatrixClientConfig} {bot : String}
    {seen : List String} {ev : MatrixEvent} {seen1 : List String}
    {eventId body sender : String}
    (hc : classifyEvent cfg bot seen ev = .dispatch seen1 eventId body sender) :
    ev.event_id = some eventId ∧ seenHas seen eventId = false ∧
      seen1 = evictOldSeen (seenAdd seen eventId) ∧
      ev.type = some "m.room.message" ∧
      ev.content = some ⟨some "m.text", some body⟩ ∧
      ev.sender = some sender ∧ sender ≠ "" ∧ body ≠ "" ∧ sender ≠ bot ∧
      sender = cfg.humanUserId ∧ jsToLowerCase body ≠ "exit" := by
  unfold classifyEvent at hc
  repeat' split at hc
  all_goals simp only [EventStep.dispatch.injEq, reduceCtorEq] at hc
  all_goals obtain ⟨rfl, rfl, rfl, rfl⟩ := hc
  all_goals (cases ‹EventContent›; simp_all)

theorem classifyEvent_skip_seen {cfg : MatrixClientConfig} {bot : String}
    {seen : List String} {ev : MatrixEvent} {seen1 : List String}
    (hc : classifyEvent cfg bot seen ev = .skip seen1) :
    seen1 = seen ∨
      ∃ i, ev.event_id = some i ∧ seenHas seen i = false ∧
        seen1 = evictOldSeen (seenAdd seen i) := by
  unfold classifyEvent at hc
  repeat' split at hc
  all_goals simp only [EventStep.skip.injEq, reduceCtorEq] at hc
  all_goals subst hc
  all_goals simp_all

theorem processEventsGo_frame (cb : CallbackBehavior) (cfg : MatrixClientConfig)
    (bot : String) :
    ∀ (evs : List MatrixEvent) (st : ModuleState),
      (processEventsGo cb cfg bot st evs).state.config = st.config ∧
      (processEventsGo cb cfg bot st evs).state.since = st.since ∧
      (processEventsGo cb cfg bot st evs).state.botUserId = st.botUserId ∧
      (processEventsGo cb cfg bot st evs).state.messageCallback = st.messageCallback ∧
      (processEventsGo cb cfg bot st evs).state.errorCallback = st.errorCallback ∧
      (processEventsGo cb cfg bot st evs).state.exitCallback = st.exitCallback
  | [], st => by simp [processEventsGo]
  | ev :: rest, st => by
    unfold processEventsGo
    cases hcl : classifyEvent cfg bot st.seen ev with
    | skip s1 =>
      simpa using processEventsGo_frame cb cfg bot rest { st with seen := s1 }
    | exitStep s1 =>
      simp only [handleExitAsync]
      split
      · split <;> simp
      · simp
    | dispatch s1 i b sd =>
      simp only
      split
      · cases cb.msgCbError b sd with
        | some e => simp
        | none =>
          simpa using processEventsGo_frame cb cfg bot rest { st with seen := s1 }
      · simpa using processEventsGo_frame cb cfg bot rest { st with seen := s1 }

theorem processEventsGo_nil (cb : CallbackBehavior) (cfg : MatrixClientConfig)
    (bot : String) (st : ModuleState) :
    processEventsGo cb cfg bot st [] = ⟨st, [], [], false, false, none⟩ := rfl

theorem processEventsGo_cons_skip {cfg : MatrixClientConfig} {bot : String}
    {st : ModuleState} {ev : MatrixEvent} {s1 : List String}
    (cb : CallbackBehavior) (rest : List MatrixEvent)
    (h : classifyEvent cfg bot st.seen ev = .skip s1) :
    processEventsGo cb cfg bot st (ev :: rest) =
      processEventsGo cb cfg bot { st with seen := s1 } rest := by
  simp only [processEventsGo]
  rw [h]

theorem processEventsGo_cons_exit {cfg : MatrixClientConfig} {bot : String}
    {st : ModuleState} {ev : MatrixEvent} {s1 : List String}
    (cb : CallbackBehavior) (rest : List MatrixEvent)
    (h : classifyEvent cfg bot st.seen ev = .exitStep s1) :
    processEventsGo cb cfg bot st (ev :: rest) =
      ⟨(handleExitAsync cb { st with seen := s1 }).state, [],
        if (handleExitAsync cb { st with seen := s1 }).invoked then [Effect.exitCb] else [],
        (handleExitAsync cb { st with seen := s1 }).invoked,
        (handleExitAsync cb { st with seen := s1 }).thrown.isNone,
        (handleExitAsync cb { st with seen := s1 }).thrown⟩ := by
  simp only [processEventsGo]
  rw [h]

theorem processEventsGo_cons_dispatch_nocb {cfg : MatrixClientConfig} {bot : String}
    {st : ModuleState} {ev : MatrixEvent} {s1 : List String} {i b sd : String}
    (cb : CallbackBehavior) (rest : List MatrixEvent)
    (h : classifyEvent cfg bot st.seen ev = .dispatch s1 i b sd)
    (hm : st.messageCallback = false) :
    processEventsGo cb cfg bot st (ev :: rest) =
      processEventsGo cb cfg bot { st with seen := s1 } rest := by
  simp only [processEventsGo]
  rw [h]
  simp [hm]

theorem processEventsGo_cons_dispatch_throw {cfg : MatrixClientConfig} {bot : String}
    {st : ModuleState} {ev : MatrixEvent} {s1 : List String} {i b sd e : String}
    (cb : CallbackBehavior) (rest : List MatrixEvent)
    (h : classifyEvent cfg bot st.seen ev = .dispatch s1 i b sd)
    (hm : st.messageCallback = true) (he : cb.msgCbError b sd = some e) :
    processEventsGo cb cfg bot st (ev :: rest) =
      ⟨{ st with seen := s1 }, [(i, b, sd)], [Effect.message b sd], false, false, some e⟩ := by
  simp only [processEventsGo]
  rw [h]
  simp [hm, he]

theorem processEventsGo_cons_dispatch_ok {cfg : MatrixClientConfig} {bot : String}
    {st : ModuleState} {ev : MatrixEvent} {s1 : List String} {i b sd : String}
    (cb : CallbackBehavior) (rest : List MatrixEvent)
    (h : classifyEvent cfg bot st.seen ev = .dispatch s1 i b sd)
    (hm : st.messageCallback = true) (he : cb.msgCbError b sd = none) :
    processEventsGo cb cfg bot st (ev :: rest) =
      ⟨(processEventsGo cb cfg bot { st with seen := s1 } rest).state,
        (i, b, sd) :: (processEventsGo cb cfg bot { st with seen := s1 } rest).dispatched,
        Effect.message b sd :: (processEventsGo cb cfg bot { st with seen := s1 } rest).effects,
        (processEventsGo cb cfg bot { st with seen := s1 } rest).exitCbInvoked,
        (processEventsGo cb cfg bot { st with seen := s1 } rest).exited,
        (processEventsGo cb cfg bot { st with seen := s1 } rest).thrown⟩ := by
  simp only [processEventsGo]
  rw [h]
  simp [hm, he]

theorem processEventsGo_append (cb : CallbackBehavior) (cfg : MatrixClientConfig)
    (bot : String) :
    ∀ (l1 l2 : List MatrixEvent) (st : ModuleState),
      (processEventsGo cb cfg bot st l1).exited = false →
      (processEventsGo cb cfg bot st l1).thrown = none →
      processEventsGo cb cfg bot st (l1 ++ l2) =
        ⟨(processEventsGo cb cfg bot (processEventsGo cb cfg bot st l1).state l2).state,
          (processEventsGo cb cfg bot st l1).dispatched ++
            (processEventsGo cb cfg bot (processEventsGo cb cfg bot st l1).state l2).dispatched,
          (processEventsGo cb cfg bot st l1).effects ++
            (processEventsGo cb cfg bot (processEventsGo cb cfg bot st l1).state l2).effects,
          (processEventsGo cb cfg bot (processEventsGo cb cfg bot st l1).state l2).exitCbInvoked,
          (processEventsGo cb cfg bot (processEventsGo cb cfg bot st l1).state l2).exited,
          (processEventsGo cb cfg bot (processEventsGo cb cfg bot st l1).state l2).thrown⟩
  | [], l2, st => by
    intro _ _
    simp [processEventsGo_nil]
  | ev :: rest, l2, st => by
    intro h1 h2
    cases hcl : classifyEvent cfg bot st.seen ev with
    | skip s1 =>
      rw [processEventsGo_cons_skip cb rest hcl] at h1 h2
      rw [List.cons_append, processEventsGo_cons_skip cb (rest ++ l2) hcl,
        processEventsGo_cons_skip cb rest hcl]
      exact processEventsGo_append cb cfg bot rest l2 _ h1 h2
    | exitStep s1 =>
      rw [processEventsGo_cons_exit cb rest hcl] at h1 h2
      simp only at h1 h2
      simp [h2] at h1
    | dispatch s1 i b sd =>
      cases hm : st.messageCallback with
      | false =>
        rw [processEventsGo_cons_dispatch_nocb cb rest hcl hm] at h1 h2
        rw [List.cons_append, processEventsGo_cons_dispatch_nocb cb (rest ++ l2) hcl hm,
          processEventsGo_cons_dispatch_nocb cb rest hcl hm]
        exact processEventsGo_append cb cfg bot rest l2 _ h1 h2
      | true =>
        cases he : cb.msgCbError b sd with
        | some e =>
          rw [processEventsGo_cons_dispatch_throw cb rest hcl hm he] at h2
          simp at h2
        | none =>
          rw [processEventsGo_cons_dispatch_ok cb rest hcl hm he] at h1 h2
          simp only at h1 h2
          rw [List.cons_append, processEventsGo_cons_dispatch_ok cb (rest ++ l2) hcl hm he,
            processEventsGo_cons_dispatch_ok cb rest hcl hm he,
            processEventsGo_append cb cfg bot rest l2 _ h1 h2]
          simp

theorem countD_nil (i : String) : countD i [] = 0 := rfl

theorem countD_cons (i : String) (t : String × String × String)
    (l : List (String × String × String)) :
    countD i (t :: l) = countD i l + if t.1 = i then 1 else 0 := by
  simp [countD, List.countP_cons]

theorem countD_append (i : String) (l1 l2 : List (String × String × String)) :
    countD i (l1 ++ l2) = countD i l1 + countD i l2 := by
  simp [countD, List.countP_append]

theorem handleExitAsync_state_seen (cb : CallbackBehavior) (st : ModuleState) :
    (handleExitAsync cb st).state.seen = st.seen := by
  unfold handleExitAsync
  cases cb.exitCbError <;> split <;> simp

theorem processEventsGo_dedup (cb : CallbackBehavior) (cfg : MatrixClientConfig)
    (bot : String) :
    ∀ (evs : List MatrixEvent) (st : ModuleState),
      st.seen.length + evs.length ≤ MAX_SEEN →
      (∀ x, x ∈ st.seen → x ∈ (processEventsGo cb cfg bot st evs).state.seen) ∧
      (processEventsGo cb cfg bot st evs).state.seen.length ≤ st.seen.length + evs.length ∧
      (∀ i, i ∈ st.seen → countD i (processEventsGo cb cfg bot st evs).dispatched = 0) ∧
      (∀ i, countD i (processEventsGo cb cfg bot st evs).dispatched ≤ 1) ∧
      (∀ i, 1 ≤ countD i (processEventsGo cb cfg bot st evs).dispatched →
        i ∈ (processEventsGo cb cfg bot st evs).state.seen)
  | [], st => by
    intro _
    simp [processEventsGo_nil, countD_nil]
  | ev :: rest, st => by
    intro H
    have Hone : st.seen.length + 1 ≤ MAX_SEEN := by
      simp only [List.length_cons] at H
      omega
    cases hcl : classifyEvent cfg bot st.seen ev with
    | skip s1 =>
      rw [processEventsGo_cons_skip cb rest hcl]
      have hs1 : (∀ x, x ∈ st.seen → x ∈ s1) ∧ s1.length ≤ st.seen.length + 1 := by
        rcases classifyEvent_skip_seen hcl with h | ⟨i, _, _, h⟩
        · subst h
          exact ⟨fun x hx => hx, by omega⟩
        · subst h
          rw [evictOldSeen_of_le (le_trans (seenAdd_length_le st.seen i) Hone)]
          exact ⟨fun x hx => mem_seenAdd_of_mem i hx, seenAdd_length_le st.seen i⟩
      have Hrec : ({ st with seen := s1 } : ModuleState).seen.length + rest.length ≤ MAX_SEEN := by
        simp only [List.length_cons] at H
        simp only []
        omega
      obtain ⟨ih1, ih2, ih3, ih4, ih5⟩ :=
        processEventsGo_dedup cb cfg bot rest { st with seen := s1 } Hrec
      refine ⟨fun x hx => ih1 x (hs1.1 x hx), ?_, fun i hi => ih3 i (hs1.1 i hi), ih4, ih5⟩
      simp only [List.length_cons]
      simp only [] at ih2
      omega
    | exitStep s1 =>
      rw [processEventsGo_cons_exit cb rest hcl]
      obtain ⟨i0, b0, s0, _, hfresh, hs1, _⟩ := classifyEvent_exit_inv hcl
      subst hs1
      rw [evictOldSeen_of_le (le_trans (seenAdd_length_le st.seen i0) Hone)]
      simp only [handleExitAsync_state_seen]
      refine ⟨fun x hx => mem_seenAdd_of_mem i0 hx, ?_, ?_, ?_, ?_⟩
      · simp only [List.length_cons]
        have := seenAdd_length_le st.seen i0
        omega
      · intro i _
        simp [countD_nil]
      · intro i
        simp [countD_nil]
      · intro i hi
        simp [countD_nil] at hi
    | dispatch s1 i b sd =>
      obtain ⟨_, hfresh, hs1, _, _, _, _, _, _, _, _⟩ := classifyEvent_dispatch_inv hcl
      have hfresh' : i ∉ st.seen := by
        intro hmem
        rw [show seenHas st.seen i = true by simpa [seenHas] using hmem] at hfresh
        exact absurd hfresh (by simp)
      have hs1' : s1 = seenAdd st.seen i := by
        rw [hs1, evictOldSeen_of_le (le_trans (seenAdd_length_le st.seen i) Hone)]
      have hmem1 : ∀ x, x ∈ st.seen → x ∈ s1 := by
        intro x hx
        rw [hs1']
        exact mem_seenAdd_of_mem i hx
      have hmemi : i ∈ s1 := by
        rw [hs1']
        exact mem_seenAdd_self
      have hlen1 : s1.length ≤ st.seen.length + 1 := by
        rw [hs1']
        exact seenAdd_length_le st.seen i
      cases hm : st.messageCallback with
      | false =>
        rw [processEventsGo_cons_dispatch_nocb cb rest hcl hm]
        have Hrec : ({ st with seen := s1 } : ModuleState).seen.length + rest.length ≤
            MAX_SEEN := by
          simp only [List.length_cons] at H
          simp only []
          omega
        obtain ⟨ih1, ih2, ih3, ih4, ih5⟩ :=
          processEventsGo_dedup cb cfg bot rest { st with seen := s1 } Hrec
        refine ⟨fun x hx => ih1 x (hmem1 x hx), ?_, fun j hj => ih3 j (hmem1 j hj), ih4, ih5⟩
        simp only [List.length_cons]
        simp only [] at ih2
        omega
      | true =>
        cases he : cb.msgCbError b sd with
        | some e =>
          rw [processEventsGo_cons_dispatch_throw cb rest hcl hm he]
          refine ⟨hmem1, ?_, ?_, ?_, ?_⟩
          · simp only [List.length_cons]
            omega
          · intro j hj
            have : i ≠ j := fun h => hfresh' (h ▸ hj)
            simp [countD_cons, countD_nil, this]
          · intro j
            simp [countD_cons, countD_nil]
            split <;> omega
          · intro j hj
            simp only [countD_cons, countD_nil] at hj
            by_cases hij : i = j
            · exact hij ▸ hmemi
            · simp [hij] at hj
        | none =>
          rw [processEventsGo_cons_dispatch_ok cb rest hcl hm he]
          have Hrec : ({ st with seen := s1 } : ModuleState).seen.length + rest.length ≤
              MAX_SEEN := by
            simp only [List.length_cons] at H
            simp only []
            omega
          obtain ⟨ih1, ih2, ih3, ih4, ih5⟩ :=
            processEventsGo_dedup cb cfg bot rest { st with seen := s1 } Hrec
          have hirec : countD i (processEventsGo cb cfg bot { st with seen := s1 }
              rest).dispatched = 0 := ih3 i hmemi
          refine ⟨fun x hx => ih1 x (hmem1 x hx), ?_, ?_, ?_, ?_⟩
          · simp only [List.length_cons]
            simp only [] at ih2
            omega
          · intro j hj
            have hij : i ≠ j := fun h => hfresh' (h ▸ hj)
            simp only [countD_cons]
            rw [ih3 j (hmem1 j hj)]
            simp [hij]
          · intro j
            simp only [countD_cons]
            by_cases hij : i = j
            · subst hij
              rw [hirec]
              simp
            · rw [if_neg hij]
              have := ih4 j
              omega
          · intro j hj
            simp only [countD_cons] at hj
            by_cases hij : i = j
            · subst hij
              exact ih1 i hmemi
            · rw [if_neg hij] at hj
              simp only [Nat.add_zero] at hj
              exact ih5 j hj

theorem processEventsAsync_trivial (cb : CallbackBehavior) (st : ModuleState)
    (events : List MatrixEvent)
    (h : st.config = none ∨ st.botUserId = none ∨ st.botUserId = some "") :
    processEventsAsync cb st events = ⟨st, [], [], false, false, none⟩ := by
  unfold processEventsAsync
  rcases h with h | h | h
  · rw [h]
  · rw [h]
    cases st.config <;> rfl
  · rw [h]
    cases st.config <;> rfl

theorem processEventsAsync_eq {st : ModuleState} {cfg : MatrixClientConfig} {bot : String}
    (cb : CallbackBehavior) (evs : List MatrixEvent)
    (hc : st.config = some cfg) (hb : st.botUserId = some bot) (hbne : bot ≠ "") :
    processEventsAsync cb st evs = processEventsGo cb cfg bot st evs := by
  unfold processEventsAsync
  rw [hc, hb]
  simp [hbne]

theorem processEventsAsync_dedup (cb : CallbackBehavior) (st : ModuleState)
    (evs : List MatrixEvent) (H : st.seen.length + evs.length ≤ MAX_SEEN) :
    (∀ x, x ∈ st.seen → x ∈ (processEventsAsync cb st evs).state.seen) ∧
    (processEventsAsync cb st evs).state.seen.length ≤ st.seen.length + evs.length ∧
    (∀ i, i ∈ st.seen → countD i (processEventsAsync cb st evs).dispatched = 0) ∧
    (∀ i, countD i (processEventsAsync cb st evs).dispatched ≤ 1) ∧
    (∀ i, 1 ≤ countD i (processEventsAsync cb st evs).dispatched →
      i ∈ (processEventsAsync cb st evs).state.seen) := by
  rcases hc : st.config with _ | cfg
  · rw [processEventsAsync_trivial cb st evs (Or.inl hc)]
    exact ⟨fun x hx => hx, Nat.le_add_right _ _, fun i _ => rfl, fun i => Nat.zero_le 1,
      fun i h => (Nat.not_succ_le_zero 0 h).elim⟩
  · rcases hb : st.botUserId with _ | bot
    · rw [processEventsAsync_trivial cb st evs (Or.inr (Or.inl hb))]
      exact ⟨fun x hx => hx, Nat.le_add_right _ _, fun i _ => rfl, fun i => Nat.zero_le 1,
        fun i h => (Nat.not_succ_le_zero 0 h).elim⟩
    · by_cases hbe : bot = ""
      · rw [processEventsAsync_trivial cb st evs (Or.inr (Or.inr (hbe ▸ hb)))]
        exact ⟨fun x hx => hx, Nat.le_add_right _ _, fun i _ => rfl, fun i => Nat.zero_le 1,
          fun i h => (Nat.not_succ_le_zero 0 h).elim⟩
      · rw [processEventsAsync_eq cb evs hc hb hbe]
        exact processEventsGo_dedup cb cfg bot evs st H

theorem processBatches_dedup (cb : CallbackBehavior) :
    ∀ (bs : List (List MatrixEvent)) (st : ModuleState),
      st.seen.length + (bs.map List.length).sum ≤ MAX_SEEN →
      (∀ x, x ∈ st.seen → x ∈ (processBatches cb st bs).1.seen) ∧
      (processBatches cb st bs).1.seen.length ≤
        st.seen.length + (bs.map List.length).sum ∧
      (∀ i, i ∈ st.seen → countD i (processBatches cb st bs).2 = 0) ∧
      (∀ i, countD i (processBatches cb st bs).2 ≤ 1) ∧
      (∀ i, 1 ≤ countD i (processBatches cb st bs).2 → i ∈ (processBatches cb st bs).1.seen)
  | [], st => by
    intro _
    simp [processBatches, countD_nil]
  | b :: bs, st => by
    intro H
    simp only [processBatches, List.map_cons, List.sum_cons]
    simp only [List.map_cons, List.sum_cons] at H
    have Hb : st.seen.length + b.length ≤ MAX_SEEN := by omega
    obtain ⟨p1, p2, p3, p4, p5⟩ := processEventsAsync_dedup cb st b Hb
    have Hrec : (processEventsAsync cb st b).state.seen.length +
        (bs.map List.length).sum ≤ MAX_SEEN := by omega
    obtain ⟨ih1, ih2, ih3, ih4, ih5⟩ :=
      processBatches_dedup cb bs (processEventsAsync cb st b).state Hrec
    refine ⟨fun x hx => ih1 x (p1 x hx), by omega, ?_, ?_, ?_⟩
    · intro j hj
      rw [countD_append, p3 j hj, ih3 j (p1 j hj)]
    · intro j
      rw [countD_append]
      by_cases h1 : 1 ≤ countD j (processEventsAsync cb st b).dispatched
      · have := ih3 j (p5 j h1)
        have := p4 j
        omega
      · have := ih4 j
        omega
    · intro j hj
      rw [countD_append] at hj
      by_cases h2 : 1 ≤ countD j (processBatches cb (processEventsAsync cb st b).state bs).2
      · exact ih5 j h2
      · have h1 : 1 ≤ countD j (processEventsAsync cb st b).dispatched := by omega
        exact ih1 j (p5 j h1)

/-- C2: across any sequence of raw event batches fed through the event
filter, an event identifier within the dedup window's capacity horizon
(here: the window never overflows during the sequence) is dispatched to
the message callback at most once, and an identifier already recorded in
the window is never dispatched at all: the membership check and the
insertion are adjacent in `processEventsAsync`, so only one filter pass
can observe an identifier as new. -/
theorem claim_c2_dedup_at_most_once (cb : CallbackBehavior) (st : ModuleState)
    (batches : List (List MatrixEvent))
    (H : st.seen.length + (batches.map List.length).sum ≤ MAX_SEEN) (i : String) :
    countD i (processBatches cb st batches).2 ≤ 1 ∧
    (i ∈ st.seen → countD i (processBatches cb st batches).2 = 0) := by
  obtain ⟨_, _, h3, h4, _⟩ := processBatches_dedup cb batches st H
  exact ⟨h4 i, h3 i⟩

/-- Witness for C2: the same event delivered in two successive batches is
dispatched at most once (here: exactly the first pass dispatches it). -/
theorem claim_c2_dedup_at_most_once_witness :
    (stA.seen.length + (([[evHi], [evHi]] : List (List MatrixEvent)).map List.length).sum ≤
      MAX_SEEN) ∧
    (countD "e1" (processBatches cbOk stA [[evHi], [evHi]]).2 ≤ 1 ∧
      ("e1" ∈ stA.seen → countD "e1" (processBatches cbOk stA [[evHi], [evHi]]).2 = 0)) :=
  ⟨by decide, claim_c2_dedup_at_most_once cbOk stA [[evHi], [evHi]] (by decide) "e1"⟩

theorem seenAdd_of_not_mem {s : List String} {a : String} (h : a ∉ s) :
    seenAdd s a = s ++ [a] := by
  unfold seenAdd
  split
  · next hc => exact absurd (by simpa using hc) h
  · rfl

theorem foldl_insertEvict_eq_drop :
    ∀ ids : List String, ids.Nodup →
      ids.foldl (fun s id => evictOldSeen (seenAdd s id)) [] =
        ids.drop (ids.length - MAX_SEEN) := by
  intro ids h
  induction ids using List.reverseRecOn with
  | nil => simp
  | append_singleton ids a ih =>
    obtain ⟨hnd, -, hdisj⟩ := List.nodup_append.mp h
    have hni : a ∉ ids := fun hmem => hdisj hmem (by simp)
    have IH := ih hnd
    rw [List.foldl_append, List.foldl_cons, List.foldl_nil, IH]
    have hsub : a ∉ ids.drop (ids.length - MAX_SEEN) :=
      fun hmem => hni (List.drop_subset _ _ hmem)
    rw [seenAdd_of_not_mem hsub]
    have hlendrop : (ids.drop (ids.length - MAX_SEEN)).length =
        ids.length - (ids.length - MAX_SEEN) := List.length_drop _ _
    by_cases hLM : ids.length < MAX_SEEN
    · have h1 : (ids.drop (ids.length - MAX_SEEN) ++ [a]).length ≤ MAX_SEEN := by
        simp only [List.length_append, List.length_singleton, hlendrop]
        omega
      rw [evictOldSeen_of_le h1]
      have h0 : ids.length - MAX_SEEN = 0 := by omega
      have h0' : (ids ++ [a]).length - MAX_SEEN = 0 := by
        simp only [List.length_append, List.length_singleton]
        omega
      rw [h0, h0']
      simp
    · have hM : MAX_SEEN ≤ ids.length := by omega
      have hMpos : 0 < MAX_SEEN := by norm_num [MAX_SEEN]
      have hlen : (ids.drop (ids.length - MAX_SEEN) ++ [a]).length = MAX_SEEN + 1 := by
        simp only [List.length_append, List.length_singleton, hlendrop]
        omega
      have hgt : MAX_SEEN < (ids.drop (ids.length - MAX_SEEN) ++ [a]).length := by omega
      rw [evictOldSeen_of_gt hgt, hlen]
      have hone : MAX_SEEN + 1 - MAX_SEEN = 1 := by omega
      rw [hone]
      have hle1 : 1 ≤ (ids.drop (ids.length - MAX_SEEN)).length := by omega
      rw [List.drop_append_of_le_length hle1, List.drop_drop]
      have e1 : ids.length - MAX_SEEN + 1 = (ids ++ [a]).length - MAX_SEEN := by
        simp only [List.length_append, List.length_singleton]
        omega
      have e2 : (ids ++ [a]).length - MAX_SEEN ≤ ids.length := by
        simp only [List.length_append, List.length_singleton]
        omega
      rw [e1, List.drop_append_of_le_length e2]

/-- C7: feeding any sequence of pairwise-distinct identifiers through the
source's insert-then-evict step (`seen.add` followed by `evictOldSeen`)
keeps the window, after every step, equal to the suffix of the most
recently inserted `MAX_SEEN` identifiers: its size never exceeds
`MAX_SEEN` (1000) and the 1000 most-recently-inserted identifiers are all
members; and each eviction pass on an over-capacity window removes exactly
`size - MAX_SEEN` entries, oldest-inserted first. -/
theorem claim_c7_eviction_bound (ids : List String) (h : ids.Nodup) :
    (∀ l : List String, MAX_SEEN < l.length →
      evictOldSeen l = l.drop (l.length - MAX_SEEN)) ∧
    ∀ k, k ≤ ids.length →
      (ids.take k).foldl (fun s id => evictOldSeen (seenAdd s id)) [] =
        (ids.take k).drop (k - MAX_SEEN) ∧
      ((ids.take k).foldl (fun s id => evictOldSeen (seenAdd s id)) []).length ≤ MAX_SEEN ∧
      ∀ x ∈ (ids.take k).drop (k - MAX_SEEN),
        x ∈ (ids.take k).foldl (fun s id => evictOldSeen (seenAdd s id)) [] := by
  refine ⟨fun l hl => evictOldSeen_of_gt hl, fun k hk => ?_⟩
  have hnd : (ids.take k).Nodup := (List.take_sublist k ids).nodup h
  have hlen : (ids.take k).length = k := by
    rw [List.length_take]
    omega
  have heq := foldl_insertEvict_eq_drop (ids.take k) hnd
  rw [hlen] at heq
  refine ⟨heq, ?_, fun x hx => by rw [heq]; exact hx⟩
  rw [heq, List.length_drop, hlen]
  omega

/-- Witness for C7: instantiation at a concrete duplicate-free identifier
sequence and step index. -/
theorem claim_c7_eviction_bound_witness :
    (["a", "b"] : List String).Nodup ∧ 2 ≤ (["a", "b"] : List String).length ∧
    (((["a", "b"] : List String).take 2).foldl (fun s id => evictOldSeen (seenAdd s id)) [] =
        ((["a", "b"] : List String).take 2).drop (2 - MAX_SEEN) ∧
      ((((["a", "b"] : List String).take 2).foldl
          (fun s id => evictOldSeen (seenAdd s id)) []).length ≤ MAX_SEEN) ∧
      ∀ x ∈ ((["a", "b"] : List String).take 2).drop (2 - MAX_SEEN),
        x ∈ ((["a", "b"] : List String).take 2).foldl
          (fun s id => evictOldSeen (seenAdd s id)) []) :=
  ⟨by decide, by decide, (claim_c7_eviction_bound ["a", "b"] (by decide)).2 2 (by decide)⟩

theorem processEventsGo_dispatch_sender (cb : CallbackBehavior) (cfg : MatrixClientConfig)
    (bot : String) :
    ∀ (evs : List MatrixEvent) (st : ModuleState),
      ∀ d ∈ (processEventsGo cb cfg bot st evs).dispatched,
        d.2.2 = cfg.humanUserId ∧ d.2.2 ≠ bot
  | [], st => by simp [processEventsGo_nil]
  | ev :: rest, st => by
    intro d hd
    cases hcl : classifyEvent cfg bot st.seen ev with
    | skip s1 =>
      rw [processEventsGo_cons_skip cb rest hcl] at hd
      exact processEventsGo_dispatch_sender cb cfg bot rest _ d hd
    | exitStep s1 =>
      rw [processEventsGo_cons_exit cb rest hcl] at hd
      simp at hd
    | dispatch s1 i b sd =>
      obtain ⟨-, -, -, -, -, -, -, -, hnbot, hhum, -⟩ := classifyEvent_dispatch_inv hcl
      cases hm : st.messageCallback with
      | false =>
        rw [processEventsGo_cons_dispatch_nocb cb rest hcl hm] at hd
        exact processEventsGo_dispatch_sender cb cfg bot rest _ d hd
      | true =>
        cases he : cb.msgCbError b sd with
        | some e =>
          rw [processEventsGo_cons_dispatch_throw cb rest hcl hm he] at hd
          simp only [List.mem_singleton] at hd
          subst hd
          exact ⟨hhum, hnbot⟩
        | none =>
          rw [processEventsGo_cons_dispatch_ok cb rest hcl hm he] at hd
          simp only [List.mem_cons] at hd
          rcases hd with rfl | hd
          · exact ⟨hhum, hnbot⟩
          · exact processEventsGo_dispatch_sender cb cfg bot rest _ d hd

theorem processEventsGo_no_human (cb : CallbackBehavior) (cfg : MatrixClientConfig)
    (bot : String) :
    ∀ (evs : List MatrixEvent) (st : ModuleState),
      (∀ ev ∈ evs, ∀ s, ev.sender = some s → ¬(s = cfg.humanUserId ∧ s ≠ bot)) →
      (processEventsGo cb cfg bot st evs).dispatched = [] ∧
      (processEventsGo cb cfg bot st evs).exitCbInvoked = false ∧
      (processEventsGo cb cfg bot st evs).exited = false ∧
      (processEventsGo cb cfg bot st evs).thrown = none ∧
      (processEventsGo cb cfg bot st evs).state.running = st.running
  | [], st => by
    intro _
    simp [processEventsGo_nil]
  | ev :: rest, st => by
    intro hno
    cases hcl : classifyEvent cfg bot st.seen ev with
    | skip s1 =>
      rw [processEventsGo_cons_skip cb rest hcl]
      exact processEventsGo_no_human cb cfg bot rest { st with seen := s1 }
        (fun e he => hno e (List.mem_cons_of_mem _ he))
    | exitStep s1 =>
      obtain ⟨i0, b0, s0, -, -, -, -, -, hsnd, -, -, hnbot, hhum, -⟩ :=
        classifyEvent_exit_inv hcl
      exact absurd ⟨hhum, hnbot⟩ (hno ev (List.mem_cons_self _ _) s0 hsnd)
    | dispatch s1 i b sd =>
      obtain ⟨-, -, -, -, -, hsnd, -, -, hnbot, hhum, -⟩ := classifyEvent_dispatch_inv hcl
      exact absurd ⟨hhum, hnbot⟩ (hno ev (List.mem_cons_self _ _) sd hsnd)

/-- C8: an event whose sender is the bot's own resolved identity is never
dispatched, regardless of content (every dispatch record's sender differs
from the bot and equals the configured human); and a batch containing no
event from the configured human (other than the bot itself) dispatches
nothing, never reaches the exit path, and leaves the running flag
untouched. -/
theorem claim_c8_sender_invariants (cb : CallbackBehavior) (st : ModuleState)
    (cfg : MatrixClientConfig) (bot : String) (events : List MatrixEvent)
    (hc : st.config = some cfg) (hb : st.botUserId = some bot) :
    (∀ d ∈ (processEventsAsync cb st events).dispatched,
      d.2.2 = cfg.humanUserId ∧ d.2.2 ≠ bot) ∧
    ((∀ ev ∈ events, ∀ s, ev.sender = some s → ¬(s = cfg.humanUserId ∧ s ≠ bot)) →
      (processEventsAsync cb st events).dispatched = [] ∧
      (processEventsAsync cb st events).exitCbInvoked = false ∧
      (processEventsAsync cb st events).exited = false ∧
      (processEventsAsync cb st events).thrown = none ∧
      (processEventsAsync cb st events).state.running = st.running) := by
  by_cases hbe : bot = ""
  · rw [processEventsAsync_trivial cb st events (Or.inr (Or.inr (hbe ▸ hb)))]
    exact ⟨fun d hd => absurd hd (List.not_mem_nil d),
      fun _ => ⟨rfl, rfl, rfl, rfl, rfl⟩⟩
  · rw [processEventsAsync_eq cb events hc hb hbe]
    exact ⟨processEventsGo_dispatch_sender cb cfg bot events st,
      processEventsGo_no_human cb cfg bot events st⟩

/-- Witness for C8: a batch holding one self-echo event and one event from
a third party dispatches nothing and cannot reach the exit path. -/
theorem claim_c8_sender_invariants_witness :
    (stA.config = some cfgA) ∧ (stA.botUserId = some "@bot:x") ∧
    ((∀ d ∈ (processEventsAsync cbOk stA [evBot, evOther]).dispatched,
      d.2.2 = cfgA.humanUserId ∧ d.2.2 ≠ "@bot:x") ∧
    ((∀ ev ∈ [evBot, evOther], ∀ s, ev.sender = some s →
        ¬(s = cfgA.humanUserId ∧ s ≠ "@bot:x")) →
      (processEventsAsync cbOk stA [evBot, evOther]).dispatched = [] ∧
      (processEventsAsync cbOk stA [evBot, evOther]).exitCbInvoked = false ∧
      (processEventsAsync cbOk stA [evBot, evOther]).exited = false ∧
      (processEventsAsync cbOk stA [evBot, evOther]).thrown = none ∧
      (processEventsAsync cbOk stA [evBot, evOther]).state.running = stA.running)) :=
  ⟨rfl, rfl, claim_c8_sender_invariants cbOk stA cfgA "@bot:x" [evBot, evOther] rfl rfl⟩

theorem handleExitAsync_ok (cb : CallbackBehavior) (st : ModuleState)
    (h : cb.exitCbError = none) :
    handleExitAsync cb st = ⟨{ st with running := false }, st.exitCallback, none⟩ := by
  unfold handleExitAsync
  rw [h]
  split <;> simp_all

theorem handleExitAsync_throw (cb : CallbackBehavior) (st : ModuleState) (e : String)
    (h : cb.exitCbError = some e) (hx : st.exitCallback = true) :
    handleExitAsync cb st = ⟨st, true, some e⟩ := by
  unfold handleExitAsync
  rw [h, hx]
  simp

theorem classifyEvent_exitStep_intro {cfg : MatrixClientConfig} {bot : String}
    {seen : List String} {ev : MatrixEvent} {eventId body sender : String}
    (hid : ev.event_id = some eventId) (hide : eventId ≠ "")
    (hfresh : seenHas seen eventId = false)
    (hty : ev.type = some "m.room.message")
    (hcont : ev.content = some ⟨some "m.text", some body⟩)
    (hsnd : ev.sender = some sender) (hsne : sender ≠ "") (hbne : body ≠ "")
    (hnbot : sender ≠ bot) (hhum : sender = cfg.humanUserId)
    (hlo : jsToLowerCase body = "exit") :
    classifyEvent cfg bot seen ev = .exitStep (evictOldSeen (seenAdd seen eventId)) := by
  unfold classifyEvent
  rw [hid, hty, hcont, hsnd]
  rw [hhum] at hsne hnbot
  simp [hide, hfresh, hsne, hbne, hnbot, hhum, hlo]

/-- C3: when a batch is `pre ++ exit-event :: post` — the exit event being
new, a well-formed text message from the configured human whose body
lowercases to `"exit"` — and processing `pre` neither exits nor throws and
the exit callback completes normally, then: the message callback is not
invoked for the exit event or for anything in `post` (the dispatch record
stays that of `pre`), the exit callback runs exactly when one is
registered, the running flag is cleared (Stopped), and `post` is not
processed at all (the seen set gains only the exit event's id, the
effects gain only the exit-callback invocation). -/
theorem claim_c3_exit_short_circuit (cb : CallbackBehavior) (st : ModuleState)
    (cfg : MatrixClientConfig) (bot : String) (pre post : List MatrixEvent)
    (ev : MatrixEvent) (eventId body sender : String)
    (hc : st.config = some cfg) (hb : st.botUserId = some bot) (hbotne : bot ≠ "")
    (hcbe : cb.exitCbError = none)
    (hpre1 : (processEventsAsync cb st pre).exited = false)
    (hpre2 : (processEventsAsync cb st pre).thrown = none)
    (hid : ev.event_id = some eventId) (hide : eventId ≠ "")
    (hfresh : seenHas (processEventsAsync cb st pre).state.seen eventId = false)
    (hty : ev.type = some "m.room.message")
    (hcont : ev.content = some ⟨some "m.text", some body⟩)
    (hsnd : ev.sender = some sender) (hsne : sender ≠ "") (hbne : body ≠ "")
    (hnbot : sender ≠ bot) (hhum : sender = cfg.humanUserId)
    (hlo : jsToLowerCase body = "exit") :
    (processEventsAsync cb st (pre ++ ev :: post)).dispatched =
      (processEventsAsync cb st pre).dispatched ∧
    (processEventsAsync cb st (pre ++ ev :: post)).exitCbInvoked = st.exitCallback ∧
    (processEventsAsync cb st (pre ++ ev :: post)).exited = true ∧
    (processEventsAsync cb st (pre ++ ev :: post)).state.running = false ∧
    (processEventsAsync cb st (pre ++ ev :: post)).state.seen =
      evictOldSeen (seenAdd (processEventsAsync cb st pre).state.seen eventId) ∧
    (processEventsAsync cb st (pre ++ ev :: post)).effects =
      (processEventsAsync cb st pre).effects ++
        (if st.exitCallback then [Effect.exitCb] else []) := by
  rw [processEventsAsync_eq cb pre hc hb hbotne] at hpre1 hpre2 hfresh ⊢
  rw [processEventsAsync_eq cb (pre ++ ev :: post) hc hb hbotne]
  have hxflag : (processEventsGo cb cfg bot st pre).state.exitCallback = st.exitCallback :=
    (processEventsGo_frame cb cfg bot pre st).2.2.2.2.2
  have hcl : classifyEvent cfg bot (processEventsGo cb cfg bot st pre).state.seen ev =
      .exitStep (evictOldSeen
        (seenAdd (processEventsGo cb cfg bot st pre).state.seen eventId)) :=
    classifyEvent_exitStep_intro hid hide hfresh hty hcont hsnd hsne hbne hnbot hhum hlo
  rw [processEventsGo_append cb cfg bot pre (ev :: post) st hpre1 hpre2]
  simp only [processEventsGo_cons_exit cb post hcl,
    handleExitAsync_ok cb _ hcbe]
  simp [hxflag]

theorem syncIterationBody_pollError (cb : CallbackBehavior) (net : NetOracle)
    (cfg : MatrixClientConfig) (st : ModuleState) (e : String)
    (h : net.pollResult = .error e) :
    syncIterationBody cb net cfg st =
      (st, [Effect.pollRequest (sinceParam st.since) 30000], some e) := by
  unfold syncIterationBody
  rw [h]

theorem syncIterationWith_of_body_some (cb : CallbackBehavior) (net : NetOracle)
    (cfg : MatrixClientConfig) (st : ModuleState) (stB : ModuleState)
    (effsB : List Effect) (e : String)
    (h : syncIterationBody cb net cfg st = (stB, effsB, some e)) :
    syncIterationWith cb net cfg st =
      (stB, effsB ++ (if stB.errorCallback then [Effect.errorCb e] else []) ++
        [Effect.backoff]) := by
  unfold syncIterationWith
  rw [h]

theorem syncIterationWith_of_body_none (cb : CallbackBehavior) (net : NetOracle)
    (cfg : MatrixClientConfig) (st : ModuleState) (stB : ModuleState)
    (effsB : List Effect)
    (h : syncIterationBody cb net cfg st = (stB, effsB, none)) :
    syncIterationWith cb net cfg st = (stB, effsB) := by
  unfold syncIterationWith
  rw [h]

theorem syncIterationWith_effects_head (cb : CallbackBehavior) (net : NetOracle)
    (cfg : MatrixClientConfig) (st : ModuleState) :
    (syncIterationWith cb net cfg st).2.head? =
      some (Effect.pollRequest (sinceParam st.since) 30000) := by
  unfold syncIterationWith syncIterationBody
  cases hp : net.pollResult with
  | error e => simp
  | ok s =>
    cases hj : (joinLoop net (inviteKeys s.rooms)).2 with
    | some e => simp [hj]
    | none =>
      simp only [hj]
      cases ht : (processEventsAsync cb
          (if truthy s.next_batch then { st with since := s.next_batch } else st)
          (extractEvents s.rooms cfg.roomId)).thrown <;> simp [hj, ht]

/-- C1: any error escaping the try block of a sync-loop iteration is
caught by the iteration's catch block — reported to the error callback
exactly when one is registered, followed by the 2000 ms back-off — and
never rethrown (the iteration always yields a state and an effect trace);
in particular a failed poll leaves the entire module state (cursor
included) unchanged, and the following iteration issues a poll with the
very cursor held before the failed poll. -/
theorem claim_c1_loop_error_containment (cb : CallbackBehavior) (net : NetOracle)
    (cfg : MatrixClientConfig) (st : ModuleState) (e : String) :
    (∀ (cb' : CallbackBehavior) (net' : NetOracle) (st0 stB : ModuleState)
        (effsB : List Effect) (e' : String),
      syncIterationBody cb' net' cfg st0 = (stB, effsB, some e') →
      syncIterationWith cb' net' cfg st0 =
        (stB, effsB ++ (if stB.errorCallback then [Effect.errorCb e'] else []) ++
          [Effect.backoff])) ∧
    (net.pollResult = .error e →
      syncIterationWith cb net cfg st =
        (st, [Effect.pollRequest (sinceParam st.since) 30000] ++
          (if st.errorCallback then [Effect.errorCb e] else []) ++ [Effect.backoff]) ∧
      ∀ (cb2 : CallbackBehavior) (net2 : NetOracle),
        (syncIterationWith cb2 net2 cfg (syncIterationWith cb net cfg st).1).2.head? =
          some (Effect.pollRequest (sinceParam st.since) 30000)) := by
  constructor
  · intro cb' net' st0 stB effsB e' hbody
    exact syncIterationWith_of_body_some cb' net' cfg st0 stB effsB e' hbody
  · intro hp
    have hbody := syncIterationBody_pollError cb net cfg st e hp
    have hwith := syncIterationWith_of_body_some cb net cfg st st
      [Effect.pollRequest (sinceParam st.since) 30000] e hbody
    refine ⟨by rw [hwith], ?_⟩
    intro cb2 net2
    rw [hwith]
    exact syncIterationWith_effects_head cb2 net2 cfg st

/-- A network oracle whose poll raises a transport failure. -/
def netErrA : NetOracle := ⟨.error "boom", fun _ => none⟩

/-- Witness for C1: the failed-poll branch instantiated concretely. -/
theorem claim_c1_loop_error_containment_witness :
    syncIterationWith cbOk netErrA cfgA stA =
      (stA, [Effect.pollRequest (sinceParam stA.since) 30000] ++
        (if stA.errorCallback then [Effect.errorCb "boom"] else []) ++ [Effect.backoff]) ∧
    ∀ (cb2 : CallbackBehavior) (net2 : NetOracle),
      (syncIterationWith cb2 net2 cfgA (syncIterationWith cbOk netErrA cfgA stA).1).2.head? =
        some (Effect.pollRequest (sinceParam stA.since) 30000) :=
  (claim_c1_loop_error_containment cbOk netErrA cfgA stA "boom").2 rfl

/-- Witness for C3: a concrete batch whose exit command precedes an
ordinary message; only the exit path fires. -/
theorem claim_c3_exit_short_circuit_witness :
    (processEventsAsync cbOk stA ([] ++ evExit :: [evHi])).dispatched =
      (processEventsAsync cbOk stA []).dispatched ∧
    (processEventsAsync cbOk stA ([] ++ evExit :: [evHi])).exitCbInvoked = stA.exitCallback ∧
    (processEventsAsync cbOk stA ([] ++ evExit :: [evHi])).exited = true ∧
    (processEventsAsync cbOk stA ([] ++ evExit :: [evHi])).state.running = false ∧
    (processEventsAsync cbOk stA ([] ++ evExit :: [evHi])).state.seen =
      evictOldSeen (seenAdd (processEventsAsync cbOk stA []).state.seen "eX") ∧
    (processEventsAsync cbOk stA ([] ++ evExit :: [evHi])).effects =
      (processEventsAsync cbOk stA []).effects ++
        (if stA.exitCallback then [Effect.exitCb] else []) :=
  claim_c3_exit_short_circuit cbOk stA cfgA "@bot:x" [] [evHi] evExit "eX" "EXIT" "@human:x"
    rfl rfl (by decide) rfl (by decide) (by decide) rfl (by decide) (by decide) rfl rfl rfl
    (by decide) (by decide) (by decide) rfl (by decide)

theorem processEventsAsync_frame (cb : CallbackBehavior) (st : ModuleState)
    (evs : List MatrixEvent) :
    (processEventsAsync cb st evs).state.config = st.config ∧
    (processEventsAsync cb st evs).state.since = st.since ∧
    (processEventsAsync cb st evs).state.botUserId = st.botUserId ∧
    (processEventsAsync cb st evs).state.messageCallback = st.messageCallback ∧
    (processEventsAsync cb st evs).state.errorCallback = st.errorCallback ∧
    (processEventsAsync cb st evs).state.exitCallback = st.exitCallback := by
  rcases hc : st.config with _ | cfg
  · rw [processEventsAsync_trivial cb st evs (Or.inl hc)]
    exact ⟨hc, rfl, rfl, rfl, rfl, rfl⟩
  · rcases hb : st.botUserId with _ | bot
    · rw [processEventsAsync_trivial cb st evs (Or.inr (Or.inl hb))]
      exact ⟨hc, rfl, hb, rfl, rfl, rfl⟩
    · by_cases hbe : bot = ""
      · rw [processEventsAsync_trivial cb st evs (Or.inr (Or.inr (hbe ▸ hb)))]
        exact ⟨hc, rfl, hb, rfl, rfl, rfl⟩
      · rw [processEventsAsync_eq cb evs hc hb hbe]
        obtain ⟨f1, f2, f3, f4, f5, f6⟩ := processEventsGo_frame cb cfg bot evs st
        exact ⟨f1.trans hc, f2, f3.trans hb, f4, f5, f6⟩

theorem syncIterationWith_fst (cb : CallbackBehavior) (net : NetOracle)
    (cfg : MatrixClientConfig) (st : ModuleState) :
    (syncIterationWith cb net cfg st).1 = (syncIterationBody cb net cfg st).1 := by
  unfold syncIterationWith
  cases h : (syncIterationBody cb net cfg st).2.2 <;> simp [h]

theorem syncIterationBody_pollOk (cb : CallbackBehavior) (net : NetOracle)
    (cfg : MatrixClientConfig) (st : ModuleState) (s : SyncResponse)
    (hp : net.pollResult = .ok s) :
    syncIterationBody cb net cfg st =
      (match (joinLoop net (inviteKeys s.rooms)).2 with
       | some e =>
         ((if truthy s.next_batch then { st with since := s.next_batch } else st),
           Effect.pollRequest (sinceParam st.since) 30000 ::
             (joinLoop net (inviteKeys s.rooms)).1, some e)
       | none =>
         ((processEventsAsync cb
             (if truthy s.next_batch then { st with since := s.next_batch } else st)
             (extractEvents s.rooms cfg.roomId)).state,
           Effect.pollRequest (sinceParam st.since) 30000 ::
             (joinLoop net (inviteKeys s.rooms)).1 ++
             (processEventsAsync cb
               (if truthy s.next_batch then { st with since := s.next_batch } else st)
               (extractEvents s.rooms cfg.roomId)).effects,
           (processEventsAsync cb
             (if truthy s.next_batch then { st with since := s.next_batch } else st)
             (extractEvents s.rooms cfg.roomId)).thrown)) := by
  unfold syncIterationBody
  rw [hp]

theorem syncIterationBody_ok_since (cb : CallbackBehavior) (net : NetOracle)
    (cfg : MatrixClientConfig) (st : ModuleState) (s : SyncResponse) (nb : String)
    (hp : net.pollResult = .ok s) (hnb : s.next_batch = some nb) (hne : nb ≠ "") :
    (syncIterationBody cb net cfg st).1.since = some nb ∧
    (syncIterationBody cb net cfg st).1.config = st.config := by
  rw [syncIterationBody_pollOk cb net cfg st s hp, hnb]
  have hif : (if truthy (some nb) then { st with since := some nb } else st) =
      { st with since := some nb } := by
    simp [truthy, hne]
  rw [hif]
  cases hj : (joinLoop net (inviteKeys s.rooms)).2 with
  | some e => simp [hj]
  | none =>
    simp only [hj]
    have hf := processEventsAsync_frame cb { st with since := some nb }
      (extractEvents s.rooms cfg.roomId)
    exact ⟨hf.2.1, hf.1⟩

/-- C6: when a successful poll carries a (truthy) `next_batch`, the cursor
is adopted before the batch's events are touched: whatever the join
oracle does and whatever the callbacks throw, the post-iteration state
carries the new cursor, and the following iteration polls with it. -/
theorem claim_c6_cursor_adoption (cb : CallbackBehavior) (net : NetOracle)
    (cfg : MatrixClientConfig) (st : ModuleState) (s : SyncResponse) (nb : String)
    (hp : net.pollResult = .ok s) (hnb : s.next_batch = some nb) (hne : nb ≠ "") :
    (syncIterationWith cb net cfg st).1.since = some nb ∧
    (syncIterationWith cb net cfg st).1.config = st.config ∧
    ∀ (cb2 : CallbackBehavior) (net2 : NetOracle),
      (syncIterationWith cb2 net2 cfg (syncIterationWith cb net cfg st).1).2.head? =
        some (Effect.pollRequest (some nb) 30000) := by
  have hb := syncIterationBody_ok_since cb net cfg st s nb hp hnb hne
  have h1 : (syncIterationWith cb net cfg st).1.since = some nb := by
    rw [syncIterationWith_fst]
    exact hb.1
  refine ⟨h1, by rw [syncIterationWith_fst]; exact hb.2, ?_⟩
  intro cb2 net2
  have hh := syncIterationWith_effects_head cb2 net2 cfg (syncIterationWith cb net cfg st).1
  rw [h1] at hh
  rw [hh]
  simp [sinceParam, hne]

/-- Rooms payload with two pending invitations and one timeline event for
the configured room. -/
def roomsA : SyncRooms :=
  ⟨some ["!a", "!b"], some [("!room:x", ⟨some ⟨some [evHi]⟩⟩)]⟩

/-- A successful poll response advancing the cursor to `"T2"`. -/
def respA : SyncResponse := ⟨some "T2", some roomsA⟩

/-- Oracle whose poll succeeds with `respA` but whose join call for room
`"!a"` throws. -/
def netJoinFailA : NetOracle :=
  ⟨.ok respA, fun r => if r = "!a" then some "denied" else none⟩

/-- Witness for C6: the cursor `"T2"` is adopted and used by the next poll
even though the join call of the same iteration throws. -/
theorem claim_c6_cursor_adoption_witness :
    (syncIterationWith cbOk netJoinFailA cfgA stA).1.since = some "T2" ∧
    (syncIterationWith cbOk netJoinFailA cfgA stA).1.config = stA.config ∧
    ∀ (cb2 : CallbackBehavior) (net2 : NetOracle),
      (syncIterationWith cb2 net2 cfgA (syncIterationWith cbOk netJoinFailA cfgA stA).1).2.head? =
        some (Effect.pollRequest (some "T2") 30000) :=
  claim_c6_cursor_adoption cbOk netJoinFailA cfgA stA respA "T2" rfl rfl (by decide)

theorem joinLoop_failure (net : NetOracle) (e : String) :
    ∀ (pre : List String) (r : String) (rest : List String),
      (∀ x ∈ pre, net.joinError x = none) → net.joinError r = some e →
      joinLoop net (pre ++ r :: rest) =
        (pre.map Effect.joinRequest ++ [Effect.joinRequest r], some e)
  | [], r, rest => by
    intro _ hr
    simp [joinLoop, hr]
  | rid :: pre, r, rest => by
    intro hpre hr
    have hrid : net.joinError rid = none := hpre rid (List.mem_cons_self _ _)
    have IH := joinLoop_failure net e pre r rest
      (fun x hx => hpre x (List.mem_cons_of_mem _ hx)) hr
    simp only [List.cons_append, joinLoop, hrid, IH]
    simp [IH]

/-- Counterexample for C4: a poll response with two pending invitations
whose first join call throws.  The iteration is aborted by the exception:
the second room is never joined (no `joinRequest "!b"` effect) and the
response's timeline event from the human is never processed (no `message`
effect, seen set untouched) — the claim asserts the remaining joins and
the event processing would still happen. -/
theorem claim_c4_counterexample :
    syncIterationWith cbOk netJoinFailA cfgA stA =
      ({ stA with since := some "T2" },
        [Effect.pollRequest (some "T1") 30000, Effect.joinRequest "!a",
          Effect.errorCb "denied", Effect.backoff]) := by
  decide

/-- C4 amended: when a join call for an invited room throws, the error is
reported to the error callback (if registered) through the loop's catch
block and the 2000 ms back-off runs, but the iteration IS aborted: rooms
invited after the failing one are not joined, the response's timeline
events are not processed (the state keeps the seen set and running flag it
had, with only the already-adopted cursor changed), and the next poll uses
the adopted cursor. -/
theorem claim_c4_join_failure_aborts (cb : CallbackBehavior) (net : NetOracle)
    (cfg : MatrixClientConfig) (st : ModuleState) (s : SyncResponse)
    (pre rest : List String) (r e : String)
    (hp : net.pollResult = .ok s)
    (hinv : inviteKeys s.rooms = pre ++ r :: rest)
    (hpre : ∀ x ∈ pre, net.joinError x = none)
    (hr : net.joinError r = some e) :
    syncIterationWith cb net cfg st =
      ((if truthy s.next_batch then { st with since := s.next_batch } else st),
        (Effect.pollRequest (sinceParam st.since) 30000 ::
          (pre.map Effect.joinRequest ++ [Effect.joinRequest r])) ++
          (if st.errorCallback then [Effect.errorCb e] else []) ++ [Effect.backoff]) := by
  have hjl := joinLoop_failure net e pre r rest hpre hr
  have hbody : syncIterationBody cb net cfg st =
      ((if truthy s.next_batch then { st with since := s.next_batch } else st),
        Effect.pollRequest (sinceParam st.since) 30000 ::
          (pre.map Effect.joinRequest ++ [Effect.joinRequest r]), some e) := by
    rw [syncIterationBody_pollOk cb net cfg st s hp, hinv, hjl]
  have hflag : (if truthy s.next_batch then { st with since := s.next_batch } else st :
      ModuleState).errorCallback = st.errorCallback := by
    split <;> rfl
  rw [syncIterationWith_of_body_some cb net cfg st _ _ e hbody, hflag]

/-- Witness for the amended C4 at the concrete failing-join oracle. -/
theorem claim_c4_join_failure_aborts_witness :
    syncIterationWith cbOk netJoinFailA cfgA stA =
      ((if truthy respA.next_batch then { stA with since := respA.next_batch } else stA),
        (Effect.pollRequest (sinceParam stA.since) 30000 ::
          (([] : List String).map Effect.joinRequest ++ [Effect.joinRequest "!a"])) ++
          (if stA.errorCallback then [Effect.errorCb "denied"] else []) ++ [Effect.backoff]) :=
  claim_c4_join_failure_aborts cbOk netJoinFailA cfgA stA respA [] ["!b"] "!a" "denied"
    rfl (by decide) (by intro x hx; simp at hx) (by decide)

/-- Counterexample for C5: with the session Running and an exit callback
registered, the exported stop operation clears the flag without invoking
the exit callback (its effect trace is empty), contradicting "the
registered exit callback is invoked before the session transitions to
Stopped"; and a signal-triggered termination arriving when already
Stopped still invokes the exit callback again, so termination when
Stopped is not a no-op. -/
theorem claim_c5_counterexample :
    stop stA = ({ stA with running := false }, []) ∧
    shutdownAsync cbOk { stA with running := false } =
      ({ stA with running := false }, [Effect.exitCb], none) := by
  decide

/-- C5 amended: the exported stop operation only clears the running flag,
never invokes the exit callback, and is idempotent; the signal-handler
path (`shutdownAsync`) invokes the registered exit callback (here assumed
to complete normally) and then clears the running flag, doing so
regardless of whether the session is Running or already Stopped. -/
theorem claim_c5_termination_paths (cb : CallbackBehavior) (st : ModuleState)
    (h : cb.exitCbError = none) :
    stop st = ({ st with running := false }, []) ∧
    (stop (stop st).1).1 = (stop st).1 ∧
    shutdownAsync cb st =
      ({ st with running := false },
        (if st.exitCallback then [Effect.exitCb] else []), none) := by
  refine ⟨rfl, rfl, ?_⟩
  unfold shutdownAsync
  rw [h]
  split <;> simp_all

/-- Witness for the amended C5 at a concrete running state. -/
theorem claim_c5_termination_paths_witness :
    stop stA = ({ stA with running := false }, []) ∧
    (stop (stop stA).1).1 = (stop stA).1 ∧
    shutdownAsync cbOk stA =
      ({ stA with running := false },
        (if stA.exitCallback then [Effect.exitCb] else []), none) :=
  claim_c5_termination_paths cbOk stA rfl

theorem registerFromConfig_proj (cfg : MatrixClientConfig) (st : ModuleState) :
    (registerFromConfig cfg st).config = st.config ∧
    (registerFromConfig cfg st).since = st.since ∧
    (registerFromConfig cfg st).botUserId = st.botUserId ∧
    (registerFromConfig cfg st).running = st.running ∧
    (registerFromConfig cfg st).seen = st.seen := by
  unfold registerFromConfig
  split <;> split <;> split <;> simp

theorem loopInBackground_proj (st : ModuleState) :
    (loopInBackground st).running = true ∧
    (loopInBackground st).since = st.since ∧
    (loopInBackground st).seen = st.seen ∧
    (loopInBackground st).botUserId = st.botUserId ∧
    (loopInBackground st).config = st.config := by
  unfold loopInBackground
  split <;> simp_all

/-- C9: when identity resolution and the bootstrap poll both succeed,
initialization issues exactly the identity request followed by one poll
with an absent cursor and a zero-length wait, adopts the returned
`next_batch` (whatever it is) as the starting cursor, fires no message,
error, or exit callback (the effect trace holds nothing but the two
requests), leaves the seen set untouched, and starts the loop. -/
theorem claim_c9_bootstrap (cfg : MatrixClientConfig) (orc : InitOracle)
    (st : ModuleState) (uid : String) (boot : SyncResponse)
    (hw : orc.whoamiResult = .ok uid) (hb : orc.bootResult = .ok boot) :
    (initAsync cfg orc st).2.1 = [Effect.whoamiRequest, Effect.pollRequest none 0] ∧
    (initAsync cfg orc st).2.2 = none ∧
    (initAsync cfg orc st).1.since = boot.next_batch ∧
    (initAsync cfg orc st).1.seen = st.seen ∧
    (initAsync cfg orc st).1.botUserId = some uid ∧
    (initAsync cfg orc st).1.running = true := by
  unfold initAsync
  rw [hw, hb]
  obtain ⟨r1, r2, r3, r4, r5⟩ := registerFromConfig_proj cfg { st with config := some cfg }
  refine ⟨rfl, rfl, ?_, ?_, ?_, ?_⟩
  · simp only []
    obtain ⟨-, l2, -, -, -⟩ := loopInBackground_proj
      { registerFromConfig cfg { st with config := some cfg } with
          botUserId := some uid, since := boot.next_batch }
    simpa using l2
  · simp only []
    obtain ⟨-, -, l3, -, -⟩ := loopInBackground_proj
      { registerFromConfig cfg { st with config := some cfg } with
          botUserId := some uid, since := boot.next_batch }
    simpa [r5] using l3
  · simp only []
    obtain ⟨-, -, -, l4, -⟩ := loopInBackground_proj
      { registerFromConfig cfg { st with config := some cfg } with
          botUserId := some uid, since := boot.next_batch }
    simpa using l4
  · simp only []
    obtain ⟨l1, -, -, -, -⟩ := loopInBackground_proj
      { registerFromConfig cfg { st with config := some cfg } with
          botUserId := some uid, since := boot.next_batch }
    simpa using l1

/-- A bootstrap response carrying a fresh cursor and a backlog of events
that initialization must discard. -/
def bootA : SyncResponse := ⟨some "s1", some roomsA⟩

/-- Oracle for a successful initialization. -/
def orcA : InitOracle := ⟨.ok "@bot:x", .ok bootA⟩

/-- The module state before initialization. -/
def st0A : ModuleState := ⟨none, none, false, false, false, none, false, []⟩

/-- Witness for C9: concrete bootstrap whose poll returns cursor `"s1"`
plus backlog events; the cursor is adopted and no callback effect occurs. -/
theorem claim_c9_bootstrap_witness :
    (initAsync cfgA orcA st0A).2.1 = [Effect.whoamiRequest, Effect.pollRequest none 0] ∧
    (initAsync cfgA orcA st0A).2.2 = none ∧
    (initAsync cfgA orcA st0A).1.since = bootA.next_batch ∧
    (initAsync cfgA orcA st0A).1.seen = st0A.seen ∧
    (initAsync cfgA orcA st0A).1.botUserId = some "@bot:x" ∧
    (initAsync cfgA orcA st0A).1.running = true :=
  claim_c9_bootstrap cfgA orcA st0A "@bot:x" bootA rfl rfl

/-- C10: when the in-band exit command is received but the registered exit
callback throws, `stop()` is never reached: the running flag keeps its
value, the exception propagates into the loop's catch block (exit-callback
invocation, error-callback report and back-off all appear in the trace),
and the next iteration polls again — a throwing exit callback silently
defeats in-band shutdown. -/
theorem claim_c10_throwing_exit_callback (cb : CallbackBehavior) (net : NetOracle)
    (cfg : MatrixClientConfig) (bot : String) (st : ModuleState) (s : SyncResponse)
    (ev : MatrixEvent) (eventId body sender e : String)
    (hp : net.pollResult = .ok s) (hnb : s.next_batch = none)
    (hinv : inviteKeys s.rooms = [])
    (hevs : extractEvents s.rooms cfg.roomId = [ev])
    (hc : st.config = some cfg) (hbu : st.botUserId = some bot) (hbotne : bot ≠ "")
    (hx : st.exitCallback = true) (herr : st.errorCallback = true)
    (hcbe : cb.exitCbError = some e)
    (hid : ev.event_id = some eventId) (hide : eventId ≠ "")
    (hfresh : seenHas st.seen eventId = false)
    (hty : ev.type = some "m.room.message")
    (hcont : ev.content = some ⟨some "m.text", some body⟩)
    (hsnd : ev.sender = some sender) (hsne : sender ≠ "") (hbne : body ≠ "")
    (hnbot : sender ≠ bot) (hhum : sender = cfg.humanUserId)
    (hlo : jsToLowerCase body = "exit") :
    syncIterationWith cb net cfg st =
      ({ st with seen := evictOldSeen (seenAdd st.seen eventId) },
        [Effect.pollRequest (sinceParam st.since) 30000, Effect.exitCb,
          Effect.errorCb e, Effect.backoff]) ∧
    ({ st with seen := evictOldSeen (seenAdd st.seen eventId) } : ModuleState).running =
      st.running ∧
    ∀ (cb2 : CallbackBehavior) (net2 : NetOracle),
      (syncIterationWith cb2 net2 cfg (syncIterationWith cb net cfg st).1).2.head? =
        some (Effect.pollRequest (sinceParam st.since) 30000) := by
  have hcl : classifyEvent cfg bot st.seen ev =
      .exitStep (evictOldSeen (seenAdd st.seen eventId)) :=
    classifyEvent_exitStep_intro hid hide hfresh hty hcont hsnd hsne hbne hnbot hhum hlo
  have hbody : syncIterationBody cb net cfg st =
      ({ st with seen := evictOldSeen (seenAdd st.seen eventId) },
        [Effect.pollRequest (sinceParam st.since) 30000, Effect.exitCb], some e) := by
    rw [syncIterationBody_pollOk cb net cfg st s hp, hnb, hinv, hevs]
    have hst1 : (if truthy none then { st with since := none } else st) = st := by
      simp [truthy]
    rw [hst1]
    rw [processEventsAsync_eq cb [ev] hc hbu hbotne]
    rw [show ([ev] : List MatrixEvent) = ev :: [] from rfl,
      processEventsGo_cons_exit cb [] hcl]
    rw [handleExitAsync_throw cb { st with seen := evictOldSeen (seenAdd st.seen eventId) }
      e hcbe hx]
    simp [joinLoop]
  have hwith := syncIterationWith_of_body_some cb net cfg st _ _ e hbody
  have heq : syncIterationWith cb net cfg st =
      ({ st with seen := evictOldSeen (seenAdd st.seen eventId) },
        [Effect.pollRequest (sinceParam st.since) 30000, Effect.exitCb,
          Effect.errorCb e, Effect.backoff]) := by
    rw [hwith]
    simp [herr]
  refine ⟨heq, rfl, ?_⟩
  intro cb2 net2
  rw [heq]
  exact syncIterationWith_effects_head cb2 net2 cfg _

/-- A poll response whose only payload is the in-band exit command. -/
def respExitA : SyncResponse :=
  ⟨none, some ⟨none, some [("!room:x", ⟨some ⟨some [evExit]⟩⟩)]⟩⟩

/-- Oracle delivering the exit command with no invitations. -/
def netExitA : NetOracle := ⟨.ok respExitA, fun _ => none⟩

/-- Witness for C10: concrete iteration receiving `"EXIT"` while the exit
callback throws; the session stays Running and the loop polls again. -/
theorem claim_c10_throwing_exit_callback_witness :
    syncIterationWith cbExitThrows netExitA cfgA stA =
      ({ stA with seen := evictOldSeen (seenAdd stA.seen "eX") },
        [Effect.pollRequest (sinceParam stA.since) 30000, Effect.exitCb,
          Effect.errorCb "exit boom", Effect.backoff]) ∧
    ({ stA with seen := evictOldSeen (seenAdd stA.seen "eX") } : ModuleState).running =
      stA.running ∧
    ∀ (cb2 : CallbackBehavior) (net2 : NetOracle),
      (syncIterationWith cb2 net2 cfgA (syncIterationWith cbExitThrows netExitA cfgA stA).1).2.head? =
        some (Effect.pollRequest (sinceParam stA.since) 30000) :=
  claim_c10_throwing_exit_callback cbExitThrows netExitA cfgA "@bot:x" stA respExitA
    evExit "eX" "EXIT" "@human:x" "exit boom" rfl rfl (by decide) (by decide) rfl rfl
    (by decide) rfl rfl rfl rfl (by decide) (by decide) rfl rfl rfl (by decide) (by decide)
    (by decide) rfl (by decide)
